import Mathlib

/-!
Verification development for the log-sanitization engine of this repository.

The definitions below are a shallow embedding of the three sanitizer
implementations found in the source:

* `JenkinsSan`  — `agent-jenkins/src/ai_agents/agents/jenkins_agent/jenkins/log_sanitizer.py`
  (`JenkinsLogSanitizer`);
* `Prepor`      — `prepor/preprocessing_pipeline.py`
  (`RegexFilters`, `PresidioProcessor`, `BusinessRulesProcessor`,
  `LogPreprocessingPipeline`);
* `LogSan`      — `log/presidio.py` (module-level `process_line`).

Python strings are modelled by `String`/`List Char`; the external Presidio
analyzer is modelled by an abstract function returning `Except` (an
exception-raising call is an `Except.error`); compiled regular expressions are
modelled by an explicit backtracking matcher over an abstract-syntax type `RE`
that mirrors Python `re` semantics (leftmost match, alternation tries the left
branch first, greedy/lazy repetition, `\b` word boundaries, non-overlapping
global substitution).  All patterns in the two big registries are compiled by
the source with either an inline `(?i)` flag or a global `re.IGNORECASE` flag,
so their character classes are embedded case-insensitively; the four patterns
of `log/presidio.py` are compiled without `re.IGNORECASE` (except `TOKEN`) and
are embedded case-sensitively.
-/

set_option maxRecDepth 20000

/-! ## Python string primitives -/

/-- Python whitespace characters (the default set of `str.strip` and `\s`). -/
def pySpace (c : Char) : Bool :=
  c = ' ' || c = '\t' || c = '\n' || c = '\r' || c = '\x0b' || c = '\x0c'

/-- Character-wise ASCII lower-casing, modelling `str.lower` on the ASCII
range used by the logs. -/
def pyLowerC (l : List Char) : List Char := l.map Char.toLower

/-- Model of the guard `if not line or not line.strip()` of
`JenkinsLogSanitizer.sanitize_line`: the line is empty or whitespace-only. -/
def isBlankLine (s : String) : Bool := s.toList.all pySpace

/-- Model of Python `str.split('\n')` on the character list level.
`splitNLc [] = [[]]`, matching `''.split('\n') == ['']`. -/
def splitNLc : List Char → List (List Char)
  | [] => [[]]
  | c :: t =>
    if c = '\n' then [] :: splitNLc t
    else
      match splitNLc t with
      | [] => [[c]]
      | h :: r => (c :: h) :: r

/-- Model of Python `str.split('\n')` on strings. -/
def splitNL (s : String) : List String := (splitNLc s.toList).map String.mk

/-- Model of Python `'\n'.join(lines)`. -/
def joinNL : List String → String
  | [] => ""
  | [l] => l
  | l :: t => l ++ "\n" ++ joinNL t

/-- Sequential concatenation of strings, modelling consecutive `write` calls
on an output file. -/
def strConcat : List String → String
  | [] => ""
  | l :: t => l ++ strConcat t

/-- Model of Python iteration over an open text file: the file content is cut
after every `'\n'`; a final fragment without a terminating newline is still
yielded; an empty file yields nothing.  (The per-line `rstrip` applied by the
streaming reader is modelled separately by `rstripCRc`.) -/
def fileLinesC : List Char → List (List Char)
  | [] => []
  | c :: t =>
    if c = '\n' then [] :: fileLinesC t
    else
      match fileLinesC t with
      | [] => [[c]]
      | h :: r => (c :: h) :: r

/-- Model of Python `line.rstrip('\n\r')`: drop trailing `'\n'`/`'\r'`. -/
def rstripCRc (l : List Char) : List Char :=
  (l.reverse.dropWhile (fun c => c = '\n' || c = '\r')).reverse

/-- Lines yielded by `StreamingLogReader.read_lines` on a file whose whole
content is `s`: file iteration followed by `rstrip('\n\r')`. -/
def fileLines (s : String) : List String :=
  (fileLinesC s.toList).map (fun l => String.mk (rstripCRc l))

/-- Substring containment on character lists, modelling Python `in`. -/
def hasSubC (pat : List Char) : List Char → Bool
  | [] => pat.isEmpty
  | c :: t => pat.isPrefixOf (c :: t) || hasSubC pat t

/-- Fueled scan for `csReplaceC`.  Each step consumes at least one input
character and one unit of fuel, so fuel `s.length + 1` never runs out; the
fuel only makes the recursion structural (and hence kernel-reducible). -/
def csReplaceAux (pat repl : List Char) : Nat → List Char → List Char
  | 0, s => s
  | _ + 1, [] => []
  | fuel + 1, c :: t =>
    if pat ≠ [] && pat.isPrefixOf (c :: t) then
      repl ++ csReplaceAux pat repl fuel (t.drop (pat.length - 1))
    else c :: csReplaceAux pat repl fuel t

/-- Case-sensitive replacement of every non-overlapping occurrence of `pat`
(scanning left to right), modelling Python `str.replace(pat, repl)` for a
non-empty `pat`. -/
def csReplaceC (pat repl : List Char) (s : List Char) : List Char :=
  csReplaceAux pat repl (s.length + 1) s

/-- Fueled scan for `ciReplaceC` (see `csReplaceAux` for the fuel). -/
def ciReplaceAux (pat repl : List Char) : Nat → List Char → List Char
  | 0, s => s
  | _ + 1, [] => []
  | fuel + 1, c :: t =>
    if pat ≠ [] && (pyLowerC pat).isPrefixOf (pyLowerC (c :: t)) then
      repl ++ ciReplaceAux pat repl fuel (t.drop (pat.length - 1))
    else c :: ciReplaceAux pat repl fuel t

/-- Case-insensitive replacement of every non-overlapping occurrence of the
literal `pat`, modelling `re.sub` of `re.escape(pat)` compiled with
`re.IGNORECASE`, for a non-empty `pat`. -/
def ciReplaceC (pat repl : List Char) (s : List Char) : List Char :=
  ciReplaceAux pat repl (s.length + 1) s

/-- Fueled scan for `countTokC` (see `csReplaceAux` for the fuel). -/
def countTokAux (tok : List Char) : Nat → List Char → Nat
  | 0, _ => 0
  | _ + 1, [] => 0
  | fuel + 1, c :: t =>
    if tok ≠ [] && tok.isPrefixOf (c :: t) then
      1 + countTokAux tok fuel (t.drop (tok.length - 1))
    else countTokAux tok fuel t

/-- Number of non-overlapping occurrences of `tok` scanning left to right,
modelling Python `str.count(tok)` for a non-empty `tok`. -/
def countTokC (tok : List Char) (s : List Char) : Nat :=
  countTokAux tok (s.length + 1) s

/-- Model of the Python slice `l[:n]` for an `int` bound `n` (a negative
bound counts from the end, clamping at zero). -/
def pySliceTo (n : Int) (l : List α) : List α :=
  if 0 ≤ n then l.take n.toNat else l.take (l.length - n.natAbs)

/-! ## A backtracking regular-expression matcher with Python `re` semantics -/

/-- Abstract syntax of the regular expressions used by the sanitizers.
Character classes are predicates; bounded repetitions are expanded into
`seq`/`alt` at construction time, so only the unbounded star is primitive. -/
inductive RE where
  | eps : RE
  | cls (p : Char → Bool) : RE
  | seq (a b : RE) : RE
  | alt (a b : RE) : RE
  | star (a : RE) (lazy : Bool) : RE
  | wordB : RE

/-- Python `\w` on the ASCII range of the logs: letters, digits, underscore. -/
def isWordChar (c : Char) : Bool := c.isAlphanum || c = '_'

/-- A word boundary between the previous character (none at the start of the
string) and the head of the remaining input. -/
def atWordBoundary (prev : Option Char) (s : List Char) : Bool :=
  let l := match prev with | none => false | some c => isWordChar c
  let r := match s with | [] => false | c :: _ => isWordChar c
  l != r

/-- Size of a regular expression, used to bound the matcher's fuel. -/
def reSize : RE → Nat
  | .eps => 1
  | .cls _ => 1
  | .seq a b => reSize a + reSize b + 1
  | .alt a b => reSize a + reSize b + 1
  | .star a _ => reSize a + 1
  | .wordB => 1

/-- Backtracking matcher in continuation-passing style.  `prev` is the
character just before the current position (for `\b`), `s` the remaining
input, and `k` the continuation receiving the state after the piece matched.
Alternation tries its left branch first; a greedy star tries one more
iteration before stopping and a lazy star tries stopping first; a star
iteration that consumes nothing ends the loop (Python's empty-match rule).
`fuel` only bounds the recursion depth and is chosen large enough by
`reFuel` that it is never exhausted on the inputs evaluated here. -/
def reRun : Nat → RE → Option Char → List Char → (Option Char → List Char → Option (List Char)) → Option (List Char)
  | 0, _, _, _, _ => none
  | fuel + 1, re, prev, s, k =>
    match re with
    | .eps => k prev s
    | .cls p =>
      match s with
      | [] => none
      | c :: rest => if p c then k (some c) rest else none
    | .seq a b => reRun fuel a prev s (fun p2 s2 => reRun fuel b p2 s2 k)
    | .alt a b =>
      match reRun fuel a prev s k with
      | some r => some r
      | none => reRun fuel b prev s k
    | .wordB => if atWordBoundary prev s then k prev s else none
    | .star a lz =>
      let again := fun p2 (s2 : List Char) =>
        if s2.length < s.length then reRun fuel (.star a lz) p2 s2 k else k p2 s2
      if lz then
        match k prev s with
        | some r => some r
        | none => reRun fuel a prev s again
      else
        match reRun fuel a prev s again with
        | some r => some r
        | none => k prev s

/-- Fuel bound: depth of nested matcher calls is at most the expression size
times the number of star iterations, each bounded by the input length. -/
def reFuel (re : RE) (s : List Char) : Nat :=
  (reSize re + 4) * (s.length + 4) + 64

/-- Try to match `re` at the current position; on success return the input
remaining after the preferred (backtracking-order) match. -/
def reTryHere (re : RE) (prev : Option Char) (s : List Char) : Option (List Char) :=
  reRun (reFuel re s) re prev s (fun _ rest => some rest)

/-- Does `re` match anywhere at or after the current position?  Models
`pattern.search(line) is not None`. -/
def reSearchAux (re : RE) (prev : Option Char) (s : List Char) : Bool :=
  match reTryHere re prev s with
  | some _ => true
  | none =>
    match s with
    | [] => false
    | c :: t => reSearchAux re (some c) t

/-- Fueled scan for `reSubAll`.  Each step either consumes the (non-empty)
matched span or one character, and one unit of fuel, so fuel `s.length + 1`
never runs out; the fuel only makes the recursion structural. -/
def reSubAux (re : RE) (repl : List Char) : Nat → Option Char → List Char → List Char
  | 0, _, s => s
  | fuel + 1, prev, s =>
    match reTryHere re prev s with
    | some rest =>
      if rest.length < s.length then
        let matched := s.take (s.length - rest.length)
        repl ++ reSubAux re repl fuel matched.getLast? rest
      else
        match s with
        | [] => repl
        | c :: t => repl ++ c :: reSubAux re repl fuel (some c) t
    | none =>
      match s with
      | [] => []
      | c :: t => c :: reSubAux re repl fuel (some c) t

/-- Replace every non-overlapping match of `re` (scanning left to right) by
`repl`, modelling `pattern.sub(repl, line)`.  After a match the scan resumes
on the original input just past the matched span (with `prev` set to the last
matched character, since `\b` looks at the original string); a zero-width
match emits the replacement and advances one character. -/
def reSubAll (re : RE) (repl : List Char) (prev : Option Char) (s : List Char) : List Char :=
  reSubAux re repl (s.length + 1) prev s

/-- Model of one registry entry applied by the sanitizers:
`if pattern.search(line): line = pattern.sub('[NAME_REDACTED]', line)`. -/
def applyPatternChecked (cur : String) (name : String) (re : RE) : String :=
  if reSearchAux re none cur.toList then
    String.mk (reSubAll re ("[" ++ name ++ "_REDACTED]").toList none cur.toList)
  else cur

/-- Model of an unconditional `pattern.sub('[NAME_REDACTED]', line)`. -/
def applyPatternSub (cur : String) (name : String) (re : RE) : String :=
  String.mk (reSubAll re ("[" ++ name ++ "_REDACTED]").toList none cur.toList)

/-! ### Construction helpers for the pattern tables

All helpers ending in `CI` fold character case, which models the fact that
every pattern of the two big registries is compiled case-insensitively
(either through an inline `(?i)` or through the `re.IGNORECASE` flag added
by the registry constructor). -/

/-- Case-insensitive single literal character. -/
def rChr (c : Char) : RE := .cls (fun x => x.toLower = c.toLower)

/-- Case-sensitive single literal character. -/
def rChrCS (c : Char) : RE := .cls (fun x => x = c)

/-- Sequence of a list of expressions. -/
def rCat (l : List RE) : RE := l.foldr .seq .eps

/-- Case-insensitive literal string. -/
def rLit (s : String) : RE := rCat (s.toList.map rChr)

/-- Case-sensitive literal string. -/
def rLitCS (s : String) : RE := rCat (s.toList.map rChrCS)

/-- Never-matching expression (used as the base of alternation folds). -/
def rFail : RE := .cls (fun _ => false)

/-- Alternation of a non-empty list, trying branches left to right. -/
def rAlt : List RE → RE
  | [] => rFail
  | [a] => a
  | a :: t => .alt a (rAlt t)

/-- Greedy option `a?`. -/
def rOpt (a : RE) : RE := .alt a .eps

/-- Greedy star `a*`. -/
def rStar (a : RE) : RE := .star a false

/-- Lazy star `a*?`. -/
def rStarL (a : RE) : RE := .star a true

/-- Greedy plus `a+`. -/
def rPlus (a : RE) : RE := .seq a (rStar a)

/-- Exactly `n` copies `a{n}`. -/
def rPow (a : RE) (n : Nat) : RE := rCat (List.replicate n a)

/-- Greedy chain of up to `n` optional copies of `a`. -/
def rUpTo (a : RE) : Nat → RE
  | 0 => .eps
  | n + 1 => .alt (.seq a (rUpTo a n)) .eps

/-- Greedy bounded repetition `a{lo,hi}`. -/
def rRep (a : RE) (lo hi : Nat) : RE := .seq (rPow a lo) (rUpTo a (hi - lo))

/-- Greedy unbounded repetition `a{lo,}`. -/
def rAtLeast (a : RE) (lo : Nat) : RE := .seq (rPow a lo) (rStar a)

/-! ## Character classes used by the pattern registries -/

/-- Class `[0-9]` (`\d`). -/
def digitC : RE := .cls Char.isDigit

/-- Class `\s*`. -/
def wsStar : RE := rStar (.cls pySpace)

/-- Class `[:=]`. -/
def colonEq : RE := .cls (fun c => c = ':' || c = '=')

/-- Class `[_-]`. -/
def underDash : RE := .cls (fun c => c = '_' || c = '-')

/-- Class `[^\s'"]`. -/
def notSpaceQuoteC : RE := .cls (fun c => !(pySpace c) && c ≠ '\'' && c ≠ '"')

/-- Class `[A-Za-z0-9_\-\.=]`. -/
def tokenCharC : RE := .cls (fun c => c.isAlphanum || c = '_' || c = '-' || c = '.' || c = '=')

/-- Class `[A-Za-z0-9/+=]`. -/
def b64CharC : RE := .cls (fun c => c.isAlphanum || c = '/' || c = '+' || c = '=')

/-- Class `[0-9A-Z]` under `re.IGNORECASE` (so also `a-z`). -/
def alnumC : RE := .cls Char.isAlphanum

/-- Class `[a-f0-9]` under `re.IGNORECASE`. -/
def hexCharC : RE := .cls (fun c => c.isDigit || ('a' ≤ c.toLower && c.toLower ≤ 'f'))

/-- Class `[A-Z]` under `re.IGNORECASE` (so any ASCII letter). -/
def alphaC : RE := .cls Char.isAlpha

/-- Class `[A-Z ]` under `re.IGNORECASE`. -/
def alphaSpaceC : RE := .cls (fun c => c.isAlpha || c = ' ')

/-- Class `.` under `re.DOTALL`. -/
def anyCharC : RE := .cls (fun _ => true)

/-- Class `.` without `re.DOTALL` (anything but a newline). -/
def anyNotNLC : RE := .cls (fun c => c ≠ '\n')

/-- Class `[A-Za-z0-9._%+-]` (e-mail local part). -/
def emailLocalC : RE := .cls (fun c => c.isAlphanum || c = '.' || c = '_' || c = '%' || c = '+' || c = '-')

/-- Class `[A-Za-z0-9.-]` / `[a-zA-Z0-9\.\-]` (host characters). -/
def emailDomainC : RE := .cls (fun c => c.isAlphanum || c = '.' || c = '-')

/-- Class `[A-Z|a-z]` (the source's TLD class literally contains `|`). -/
def emailTldC : RE := .cls (fun c => c.isAlpha || c = '|')

/-- Class `[^\s]`. -/
def notSpaceC : RE := .cls (fun c => !(pySpace c))

/-- Class `[a-zA-Z0-9_\-]`. -/
def nameCharC : RE := .cls (fun c => c.isAlphanum || c = '_' || c = '-')

/-- Class `[^:\s]`. -/
def notColonSpaceC : RE := .cls (fun c => c ≠ ':' && !(pySpace c))

/-- Class `[^@\s]`. -/
def notAtSpaceC : RE := .cls (fun c => c ≠ '@' && !(pySpace c))

/-- Class `[^\\]`. -/
def notBackslashC : RE := .cls (fun c => c ≠ '\\')

/-- Class `[ -]` (a space or a literal dash). -/
def spDashC : RE := .cls (fun c => c = ' ' || c = '-')

/-- Class `[^\s<>"\']` (URL characters of the pipeline registry). -/
def urlCharC : RE := .cls (fun c => !(pySpace c) && c ≠ '<' && c ≠ '>' && c ≠ '"' && c ≠ '\'')

/-- Digit range class such as `[1-9]`. -/
def digRange (lo hi : Char) : RE := .cls (fun c => lo ≤ c && c ≤ hi)

/-- Shape `key\s*[:=]\s*value` shared by the assignment patterns. -/
def kvPat (key : RE) (value : RE) : RE := rCat [key, wsStar, colonEq, wsStar, value]

/-! ## The Jenkins pattern registry (`JenkinsLogSanitizer.sensitive_patterns`)

One definition per entry, in the dictionary's insertion order.  Patterns with
an inline `(?i)` are compiled by the source with `re.DOTALL`, the remaining
ones with `re.DOTALL | re.IGNORECASE`; either way every pattern is
case-insensitive, which the classes above reflect. -/

/-- `(?i)(password\s*[:=]\s*[^\s'"]+)` -/
def reJ_PASSWORD : RE := kvPat (rLit "password") (rPlus notSpaceQuoteC)

/-- `(?i)(token\s*[:=]\s*[A-Za-z0-9_\-\.=]{20,})` -/
def reJ_TOKEN : RE := kvPat (rLit "token") (rAtLeast tokenCharC 20)

/-- `(?i)(api[_-]?key\s*[:=]\s*[A-Za-z0-9_\-\.=]{20,})` -/
def reJ_API_KEY : RE := kvPat (rCat [rLit "api", rOpt underDash, rLit "key"]) (rAtLeast tokenCharC 20)

/-- `(?i)(secret[_-]?key\s*[:=]\s*[A-Za-z0-9_\-\.=]{20,})` -/
def reJ_SECRET_KEY : RE := kvPat (rCat [rLit "secret", rOpt underDash, rLit "key"]) (rAtLeast tokenCharC 20)

/-- `(AKIA[0-9A-Z]{16})` -/
def reJ_AWS_ACCESS_KEY : RE := rCat [rLit "AKIA", rPow alnumC 16]

/-- `(?i)(aws_secret_access_key\s*[:=]\s*[A-Za-z0-9/+=]{40})` -/
def reJ_AWS_SECRET : RE := kvPat (rLit "aws_secret_access_key") (rPow b64CharC 40)

/-- `-----BEGIN [A-Z ]*PRIVATE KEY-----.*?-----END [A-Z ]*PRIVATE KEY-----` -/
def reJ_PRIVATE_KEY : RE :=
  rCat [rLit "-----BEGIN ", rStar alphaSpaceC, rLit "PRIVATE KEY-----", rStarL anyCharC,
        rLit "-----END ", rStar alphaSpaceC, rLit "PRIVATE KEY-----"]

/-- `(?i)(jenkins[_-]?token\s*[:=]\s*[A-Za-z0-9_\-\.=]+)` -/
def reJ_JENKINS_TOKEN : RE := kvPat (rCat [rLit "jenkins", rOpt underDash, rLit "token"]) (rPlus tokenCharC)

/-- `(?i)(build[_-]?token\s*[:=]\s*[A-Za-z0-9_\-\.=]+)` -/
def reJ_BUILD_TOKEN : RE := kvPat (rCat [rLit "build", rOpt underDash, rLit "token"]) (rPlus tokenCharC)

/-- `(?i)(webhook[_-]?secret\s*[:=]\s*[A-Za-z0-9_\-\.=]+)` -/
def reJ_WEBHOOK_SECRET : RE := kvPat (rCat [rLit "webhook", rOpt underDash, rLit "secret"]) (rPlus tokenCharC)

/-- `(?i)(jenkins_api_token\s*[:=]\s*[A-Za-z0-9_\-\.=]+)` -/
def reJ_JENKINS_API_TOKEN : RE := kvPat (rLit "jenkins_api_token") (rPlus tokenCharC)

/-- `[0-9]{1,3}` (an unconstrained IPv4 octet). -/
def octet13 : RE := rRep digitC 1 3

/-- `\b(?:10\.(?:[0-9]{1,3}\.){2}[0-9]{1,3}|172\.(?:1[6-9]|2[0-9]|3[01])\.(?:[0-9]{1,3}\.)[0-9]{1,3}|192\.168\.(?:[0-9]{1,3}\.)[0-9]{1,3})\b` -/
def reJ_INTERNAL_IP : RE :=
  rCat [.wordB,
        rAlt [rCat [rLit "10.", rPow (rCat [octet13, rChr '.']) 2, octet13],
              rCat [rLit "172.",
                    rAlt [rCat [rChr '1', digRange '6' '9'],
                          rCat [rChr '2', digitC],
                          rCat [rChr '3', digRange '0' '1']],
                    rChr '.', rCat [octet13, rChr '.'], octet13],
              rCat [rLit "192.168.", rCat [octet13, rChr '.'], octet13]],
        .wordB]

/-- `25[0-5]|2[0-4][0-9]|[01]?[0-9][0-9]?` (a strict IPv4 octet). -/
def ipOctet : RE :=
  rAlt [rCat [rLit "25", digRange '0' '5'],
        rCat [rChr '2', digRange '0' '4', digitC],
        rCat [rOpt (digRange '0' '1'), digitC, rOpt digitC]]

/-- `\b(?:(?:25[0-5]|2[0-4][0-9]|[01]?[0-9][0-9]?)\.){3}(?:25[0-5]|2[0-4][0-9]|[01]?[0-9][0-9]?)\b` -/
def reJ_PUBLIC_IP : RE := rCat [.wordB, rPow (rCat [ipOctet, rChr '.']) 3, ipOctet, .wordB]

/-- `\b[A-Za-z0-9._%+-]+@[A-Za-z0-9.-]+\.[A-Z|a-z]{2,}\b` -/
def reJ_EMAIL : RE :=
  rCat [.wordB, rPlus emailLocalC, rChr '@', rPlus emailDomainC, rChr '.', rAtLeast emailTldC 2, .wordB]

/-- `(?i)(http[s]?://[a-zA-Z0-9\.\-]+\.(?:local|internal|corp)[^\s]*)` -/
def reJ_INTERNAL_URL : RE :=
  rCat [rLit "http", rOpt (rChr 's'), rLit "://", rPlus emailDomainC, rChr '.',
        rAlt [rLit "local", rLit "internal", rLit "corp"], rStar notSpaceC]

/-- `(?i)(db[_-]?password\s*[:=]\s*[^\s'"]+)` -/
def reJ_DB_PASSWORD : RE := kvPat (rCat [rLit "db", rOpt underDash, rLit "password"]) (rPlus notSpaceQuoteC)

/-- `(?i)(database[_-]?url\s*[:=]\s*[^\s'"]+)` -/
def reJ_DATABASE_URL : RE := kvPat (rCat [rLit "database", rOpt underDash, rLit "url"]) (rPlus notSpaceQuoteC)

/-- `(?i)(mysql_root_password\s*[:=]\s*[^\s'"]+)` -/
def reJ_MYSQL_ROOT_PASSWORD : RE := kvPat (rLit "mysql_root_password") (rPlus notSpaceQuoteC)

/-- `(?i)(postgres_password\s*[:=]\s*[^\s'"]+)` -/
def reJ_POSTGRES_PASSWORD : RE := kvPat (rLit "postgres_password") (rPlus notSpaceQuoteC)

/-- `(?i)(https?://[^:\s]+:[^@\s]+@[^\s]+)` -/
def reJ_URL_WITH_CREDS : RE :=
  rCat [rLit "http", rOpt (rChr 's'), rLit "://", rPlus notColonSpaceC, rChr ':',
        rPlus notAtSpaceC, rChr '@', rPlus notSpaceC]

/-- `(?i)(/home/[a-zA-Z0-9_\-]+|C:\\Users\\[a-zA-Z0-9_\-]+)` -/
def reJ_HOME_PATH : RE :=
  rAlt [rCat [rLit "/home/", rPlus nameCharC],
        rCat [rLit "C:\\Users\\", rPlus nameCharC]]

/-- `(?i)(/\.ssh/[a-zA-Z0-9_\-]+|C:\\Users\\[^\\]+\\\.ssh\\[a-zA-Z0-9_\-]+)` -/
def reJ_SSH_KEY_PATH : RE :=
  rAlt [rCat [rLit "/.ssh/", rPlus nameCharC],
        rCat [rLit "C:\\Users\\", rPlus notBackslashC, rLit "\\.ssh\\", rPlus nameCharC]]

/-- `\b(?:\d[ -]*?){13,16}\b` -/
def reJ_CREDIT_CARD : RE := rCat [.wordB, rRep (rCat [digitC, rStarL spDashC]) 13 16, .wordB]

/-- `\b[A-Z]{2}\d{2}[A-Z0-9]{11,30}\b` -/
def reJ_IBAN : RE := rCat [.wordB, rPow alphaC 2, rPow digitC 2, rRep alnumC 11 30, .wordB]

/-- `\b\+?[1-9]\d{9,14}\b` -/
def reJ_PHONE : RE := rCat [.wordB, rOpt (rChr '+'), digRange '1' '9', rRep digitC 9 14, .wordB]

/-- `\b\d{3}-\d{2}-\d{4}\b` -/
def reJ_SSN : RE := rCat [.wordB, rPow digitC 3, rChr '-', rPow digitC 2, rChr '-', rPow digitC 4, .wordB]

/-- `\b[a-f0-9]{32,}\b` -/
def reJ_LONG_HEX_ID : RE := rCat [.wordB, rAtLeast hexCharC 32, .wordB]

/-- `\beyJ[A-Za-z0-9_\-]*\.[A-Za-z0-9_\-]*\.[A-Za-z0-9_\-]*\b` -/
def reJ_JWT_TOKEN : RE :=
  rCat [.wordB, rLit "eyJ", rStar nameCharC, rChr '.', rStar nameCharC, rChr '.', rStar nameCharC, .wordB]

/-- `(?i)(jwt[_-]?secret\s*[:=]\s*[^\s'"]+)` -/
def reJ_JWT_SECRET : RE := kvPat (rCat [rLit "jwt", rOpt underDash, rLit "secret"]) (rPlus notSpaceQuoteC)

/-- `(?i)(openai_api_key\s*[:=]\s*sk-[A-Za-z0-9_\-]+)` -/
def reJ_OPENAI_API_KEY : RE := kvPat (rLit "openai_api_key") (rCat [rLit "sk-", rPlus nameCharC])

/-- `(?i)(openrouter_api_key\s*[:=]\s*sk-or-[A-Za-z0-9_\-]+)` -/
def reJ_OPENROUTER_API_KEY : RE := kvPat (rLit "openrouter_api_key") (rCat [rLit "sk-or-", rPlus nameCharC])

/-- The registry `sensitive_patterns` of `JenkinsLogSanitizer`, in insertion
order (Python dictionaries preserve it). -/
def jenkinsPatterns : List (String × RE) :=
  [("PASSWORD", reJ_PASSWORD), ("TOKEN", reJ_TOKEN), ("API_KEY", reJ_API_KEY),
   ("SECRET_KEY", reJ_SECRET_KEY), ("AWS_ACCESS_KEY", reJ_AWS_ACCESS_KEY),
   ("AWS_SECRET", reJ_AWS_SECRET), ("PRIVATE_KEY", reJ_PRIVATE_KEY),
   ("JENKINS_TOKEN", reJ_JENKINS_TOKEN), ("BUILD_TOKEN", reJ_BUILD_TOKEN),
   ("WEBHOOK_SECRET", reJ_WEBHOOK_SECRET), ("JENKINS_API_TOKEN", reJ_JENKINS_API_TOKEN),
   ("INTERNAL_IP", reJ_INTERNAL_IP), ("PUBLIC_IP", reJ_PUBLIC_IP), ("EMAIL", reJ_EMAIL),
   ("INTERNAL_URL", reJ_INTERNAL_URL), ("DB_PASSWORD", reJ_DB_PASSWORD),
   ("DATABASE_URL", reJ_DATABASE_URL), ("MYSQL_ROOT_PASSWORD", reJ_MYSQL_ROOT_PASSWORD),
   ("POSTGRES_PASSWORD", reJ_POSTGRES_PASSWORD), ("URL_WITH_CREDS", reJ_URL_WITH_CREDS),
   ("HOME_PATH", reJ_HOME_PATH), ("SSH_KEY_PATH", reJ_SSH_KEY_PATH),
   ("CREDIT_CARD", reJ_CREDIT_CARD), ("IBAN", reJ_IBAN), ("PHONE", reJ_PHONE),
   ("SSN", reJ_SSN), ("LONG_HEX_ID", reJ_LONG_HEX_ID), ("JWT_TOKEN", reJ_JWT_TOKEN),
   ("JWT_SECRET", reJ_JWT_SECRET), ("OPENAI_API_KEY", reJ_OPENAI_API_KEY),
   ("OPENROUTER_API_KEY", reJ_OPENROUTER_API_KEY)]

/-- The names of the registered Jenkins patterns, in registration order. -/
def jenkinsPatternNames : List String := jenkinsPatterns.map Prod.fst

/-! ## PII findings and the splice loop shared by the three sanitizers -/

/-- A Presidio finding: an entity label plus a half-open character span.
The source's attribute `end` is called `stop` here (`end` is a Lean
keyword). -/
structure PFinding where
  entity : String
  start : Nat
  stop : Nat
deriving DecidableEq

/-- The external Presidio analyzer, abstractly: a per-line call that either
returns a list of findings or raises (`Except.error`). -/
def PAnalyzer : Type := String → Except String (List PFinding)

/-- Insert a finding into a list already sorted by descending `start`,
after every finding with a greater-or-equal `start` (so the sort below is
stable, like Python's `sorted`). -/
def insDescStart (f : PFinding) : List PFinding → List PFinding
  | [] => [f]
  | g :: t => if f.start ≤ g.start then g :: insDescStart f t else f :: g :: t

/-- Model of `sorted(results, key=lambda r: r.start, reverse=True)`: a stable
sort by descending `start`. -/
def sortDescStart (l : List PFinding) : List PFinding :=
  l.foldl (fun acc f => insDescStart f acc) []

/-- One splice step `line[:start] + "[" + entity + tag + line[end:]`, where
`tag` is `"_PII_REDACTED]"` in the Jenkins sanitizer and `"_REDACTED]"` in
the other two implementations. -/
def spliceFinding (tag : String) (f : PFinding) (line : String) : String :=
  String.mk (line.toList.take f.start) ++ "[" ++ f.entity ++ tag ++
    String.mk (line.toList.drop f.stop)

/-- The replacement loop over `sorted(results, key=..., reverse=True)`.
(The sources guard the loop with `if results:`; an empty fold returns the
line unchanged, so the guard needs no separate model.) -/
def applyFindings (tag : String) (results : List PFinding) (line : String) : String :=
  (sortDescStart results).foldl (fun cur f => spliceFinding tag f cur) line

namespace JenkinsSan

/-- Stage 1 of `JenkinsLogSanitizer.sanitize_line`: every registered pattern,
in registration order, is searched on the current (already partially
redacted) line and, when found, globally substituted. -/
def regexStage (line : String) : String :=
  jenkinsPatterns.foldl (fun cur p => applyPatternChecked cur p.1 p.2) line

/-- The term set `sensitive_terms` of `JenkinsLogSanitizer`.  The source
stores it in a Python `set`, whose iteration order is unspecified (string
hashing is randomized per process); this list fixes the literal order of the
set display, and every fact proved below that could depend on the order says
so explicitly. -/
def sensitiveTerms : List String :=
  ["production", "prod", "staging", "dev-secret", "admin-key"]

/-- Stage 2 of `sanitize_line`: for each term whose lower-cased form occurs
in the lower-cased current line, replace every case-insensitive occurrence
by `[SENSITIVE_TERM_REDACTED]`. -/
def termStage (terms : List String) (line : String) : String :=
  terms.foldl
    (fun cur term =>
      if hasSubC (pyLowerC term.toList) (pyLowerC cur.toList) then
        String.mk (ciReplaceC term.toList "[SENSITIVE_TERM_REDACTED]".toList cur.toList)
      else cur)
    line

/-- `JenkinsLogSanitizer._apply_presidio`: analyze the line; on an exception
return the line unchanged; otherwise splice every finding, processed in
descending-`start` order, emitting `[<ENTITY>_PII_REDACTED]`. -/
def applyPresidioStage (a : PAnalyzer) (line : String) : String :=
  match a line with
  | .error _ => line
  | .ok results => applyFindings "_PII_REDACTED]" results line

/-- `JenkinsLogSanitizer.sanitize_line`.  `analyzer = none` models
`enable_advanced_pii=False` (or an unavailable Presidio), `terms` the
iteration order of the sensitive-term set. -/
def sanitize_line (analyzer : Option PAnalyzer) (terms : List String) (line : String) : String :=
  if isBlankLine line then line
  else
    let l1 := regexStage line
    let l2 := termStage terms l1
    match analyzer with
    | some a => applyPresidioStage a l2
    | none => l2

/-- `JenkinsLogSanitizer.sanitize_logs`: empty input is returned as is;
otherwise split on newlines, truncate to `lines[:max_lines]` when
`max_lines` is truthy (a Python `int` is truthy exactly when non-zero),
sanitize per line, rejoin with newlines. -/
def sanitize_logs (analyzer : Option PAnalyzer) (terms : List String)
    (logs : String) (maxLines : Option Int) : String :=
  if logs = "" then logs
  else
    let lines := splitNL logs
    let lines :=
      match maxLines with
      | some n => if n ≠ 0 then pySliceTo n lines else lines
      | none => lines
    joinNL (lines.map (sanitize_line analyzer terms))

end JenkinsSan

/-- The statistics record returned by
`JenkinsLogSanitizer.get_sanitization_summary`.  The dictionary entry
`sanitization_ratio` is the field `ratioValue`, an exact rational standing
for the Python float quotient. -/
structure SanStats where
  totalLines : Nat
  modifiedLines : Nat
  redactedItems : Nat
  ratioValue : ℚ

/-- The token whose occurrences `get_sanitization_summary` counts. -/
def redactedTok : List Char := "_REDACTED]".toList

/-- The loop body of `get_sanitization_summary`: over one `zip` pair,
count the line as modified when it differs, and then also add the
occurrences of `'_REDACTED]'` in the sanitized line. -/
def summaryStep (acc : Nat × Nat) (pr : String × String) : Nat × Nat :=
  if pr.1 ≠ pr.2 then (acc.1 + 1, acc.2 + countTokC redactedTok pr.2.toList) else acc

namespace JenkinsSan

/-- `JenkinsLogSanitizer.get_sanitization_summary`: split both texts (an
empty or falsy text gives `[]`), then fold `summaryStep` over
`zip(original_lines, sanitized_lines)`. -/
def get_sanitization_summary (original sanitized : String) : SanStats :=
  let origLines := if original = "" then [] else splitNL original
  let sanLines := if sanitized = "" then [] else splitNL sanitized
  let ms := (origLines.zip sanLines).foldl summaryStep (0, 0)
  { totalLines := origLines.length
    modifiedLines := ms.1
    redactedItems := ms.2
    ratioValue := (ms.1 : ℚ) / (max origLines.length 1 : ℚ) }

end JenkinsSan

/-! ## The pipeline registry (`RegexFilters.patterns` of
`prepor/preprocessing_pipeline.py`), in insertion order.  Entries whose raw
expression coincides with a Jenkins entry reuse its embedding. -/

/-- `\b(?:[0-9]{1,3}\.){3}[0-9]{1,3}\b` -/
def reP_IP_ADDRESS : RE := rCat [.wordB, rPow (rCat [octet13, rChr '.']) 3, octet13, .wordB]

/-- `https?://[^\s<>"\']+` (compiled with `re.IGNORECASE`) -/
def reP_URL : RE := rCat [rLit "http", rOpt (rChr 's'), rLit "://", rPlus urlCharC]

/-- `\b[a-f0-9]{40}\b` -/
def reP_GIT_COMMIT : RE := rCat [.wordB, rPow hexCharC 40, .wordB]

/-- `\b[a-f0-9]{32}\b` -/
def reP_MD5_HASH : RE := rCat [.wordB, rPow hexCharC 32, .wordB]

/-- `\b[a-f0-9]{64}\b` -/
def reP_SHA256_HASH : RE := rCat [.wordB, rPow hexCharC 64, .wordB]

/-- `\b[a-f0-9]{16,}\b` -/
def reP_HEX_ID : RE := rCat [.wordB, rAtLeast hexCharC 16, .wordB]

/-- The registry `RegexFilters.patterns`, in insertion order. -/
def preporPatterns : List (String × RE) :=
  [("PASSWORD", reJ_PASSWORD), ("TOKEN", reJ_TOKEN), ("API_KEY", reJ_API_KEY),
   ("SECRET_KEY", reJ_SECRET_KEY), ("AWS_ACCESS_KEY", reJ_AWS_ACCESS_KEY),
   ("AWS_SECRET", reJ_AWS_SECRET), ("PRIVATE_KEY", reJ_PRIVATE_KEY),
   ("IP_ADDRESS", reP_IP_ADDRESS), ("EMAIL", reJ_EMAIL), ("URL", reP_URL),
   ("INTERNAL_URL", reJ_INTERNAL_URL), ("CREDIT_CARD", reJ_CREDIT_CARD),
   ("IBAN", reJ_IBAN), ("PHONE", reJ_PHONE), ("SSN", reJ_SSN),
   ("GIT_COMMIT", reP_GIT_COMMIT), ("MD5_HASH", reP_MD5_HASH),
   ("SHA256_HASH", reP_SHA256_HASH), ("HEX_ID", reP_HEX_ID),
   ("DB_PASSWORD", reJ_DB_PASSWORD), ("DATABASE_URL", reJ_DATABASE_URL),
   ("JWT_SECRET", reJ_JWT_SECRET), ("JENKINS_TOKEN", reJ_JENKINS_TOKEN),
   ("BUILD_TOKEN", reJ_BUILD_TOKEN)]

namespace Prepor

/-- `RegexFilters.process_line`: each registry pattern, in order, is searched
on the current line and globally substituted when found. -/
def regexFiltersLine (line : String) : String :=
  preporPatterns.foldl (fun cur p => applyPatternChecked cur p.1 p.2) line

/-- `PresidioProcessor.process_line`: a missing analyzer (Presidio not
available) returns the line; an analyzer exception returns the line;
otherwise every finding is spliced in descending-`start` order with
`[<ENTITY>_REDACTED]`. -/
def presidioLine (a : Option PAnalyzer) (line : String) : String :=
  match a with
  | none => line
  | some f =>
    match f line with
    | .error _ => line
    | .ok results => applyFindings "_REDACTED]" results line

/-- `BusinessRulesProcessor.process_line`: first replace every case-sensitive
term, then — against a lower-cased snapshot taken once, as in the source —
every case-insensitive term, both with the fixed placeholder `[REDACTED]`. -/
def businessRulesLine (csTerms ciTerms : List String) (line : String) : String :=
  let afterCS := csTerms.foldl
    (fun cur term =>
      if hasSubC term.toList cur.toList then
        String.mk (csReplaceC term.toList "[REDACTED]".toList cur.toList)
      else cur)
    line
  let lowerSnapshot := pyLowerC afterCS.toList
  ciTerms.foldl
    (fun cur term =>
      if hasSubC term.toList lowerSnapshot then
        String.mk (ciReplaceC term.toList "[REDACTED]".toList cur.toList)
      else cur)
    afterCS

/-- `LogPreprocessingPipeline.process_line`: regex filters, then Presidio,
then business rules. -/
def process_line (a : Option PAnalyzer) (csTerms ciTerms : List String) (line : String) : String :=
  let l1 := regexFiltersLine line
  let l2 := presidioLine a l1
  businessRulesLine csTerms ciTerms l2

/-- The per-line output writing of `LogPreprocessingPipeline.preprocess_logs`:
each streamed input line is processed and written followed by `'\n'`. -/
def streamOutput (a : Option PAnalyzer) (csTerms ciTerms : List String) (text : String) : String :=
  strConcat ((fileLines text).map (fun l => process_line a csTerms ciTerms l ++ "\n"))

end Prepor

/-! ## The standalone sanitizer of `log/presidio.py` -/

/-- `\b\d{1,3}(?:\.\d{1,3}){3}\b` -/
def reL_IP : RE := rCat [.wordB, rRep digitC 1 3, rPow (rCat [rChrCS '.', rRep digitC 1 3]) 3, .wordB]

/-- `[a-zA-Z0-9._%+-]+@[a-zA-Z0-9.-]+\.[a-zA-Z]{2,}` (no flags) -/
def reL_EMAIL : RE :=
  rCat [rPlus emailLocalC, rChrCS '@', rPlus emailDomainC, rChrCS '.',
        rAtLeast (.cls Char.isAlpha) 2]

/-- `https?://[^\s]+` (no flags, hence case-sensitive) -/
def reL_URL : RE := rCat [rLitCS "http", rOpt (rChrCS 's'), rLitCS "://", rPlus notSpaceC]

/-- `(AKIA[0-9A-Z]{16}|password\s*=\s*.+)` with `re.IGNORECASE` (no `DOTALL`,
so `.` excludes the newline). -/
def reL_TOKEN : RE :=
  .alt (rCat [rLit "AKIA", rPow alnumC 16])
       (rCat [rLit "password", wsStar, rChrCS '=', wsStar, rPlus anyNotNLC])

/-- The module-level `REGEX_PATTERNS` dictionary, in insertion order. -/
def logsanPatterns : List (String × RE) :=
  [("IP", reL_IP), ("EMAIL", reL_EMAIL), ("URL", reL_URL), ("TOKEN", reL_TOKEN)]

namespace LogSan

/-- Step 1 of `process_line`: every pattern is substituted unconditionally
(`proc = pattern.sub(...)`, no search guard). -/
def regexStage (line : String) : String :=
  logsanPatterns.foldl (fun cur p => applyPatternSub cur p.1 p.2) line

/-- Step 2 of `process_line`: when the module-level analyzer exists, splice
its findings in descending-`start` order with `[<ENTITY>_REDACTED]`; an
analysis exception leaves the line as it was (`except Exception: pass`). -/
def presidioStage (a : Option PAnalyzer) (line : String) : String :=
  match a with
  | none => line
  | some f =>
    match f line with
    | .error _ => line
    | .ok results => applyFindings "_REDACTED]" results line

/-- The module-level `sensitive_terms` set, in its display order (a Python
set's iteration order is unspecified; no fact below depends on it). -/
def sensitiveTerms : List String := ["DB_PROD", "SECRET_KEY", "salary", "ssn"]

/-- Step 3 of `process_line`: case-sensitive replacement of each internal
term by the term-specific placeholder `[<term>_REDACTED]`. -/
def termStage (terms : List String) (line : String) : String :=
  terms.foldl
    (fun cur term =>
      if hasSubC term.toList cur.toList then
        String.mk (csReplaceC term.toList ("[" ++ term ++ "_REDACTED]").toList cur.toList)
      else cur)
    line

/-- `process_line` of `log/presidio.py`: `rstrip('\r\n')`, then regexes,
then Presidio, then the internal terms. -/
def process_line (a : Option PAnalyzer) (line : String) : String :=
  let original := String.mk (rstripCRc line.toList)
  let p1 := regexStage original
  let p2 := presidioStage a p1
  termStage sensitiveTerms p2

end LogSan

/-! ## Helper lemmas about the stable descending sort of findings -/

lemma mem_insDescStart {x f : PFinding} :
    ∀ {l : List PFinding}, x ∈ insDescStart f l → x = f ∨ x ∈ l
  | [], h => by simpa [insDescStart] using h
  | g :: t, h => by
    by_cases hc : f.start ≤ g.start
    · simp only [insDescStart, if_pos hc, List.mem_cons] at h
      rcases h with h | h
      · exact Or.inr (by simp [h])
      · rcases mem_insDescStart h with h1 | h1
        · exact Or.inl h1
        · exact Or.inr (by simp [h1])
    · simp only [insDescStart, if_neg hc, List.mem_cons] at h
      rcases h with h | h
      · exact Or.inl h
      · exact Or.inr (by simpa using h)

lemma pairwise_insDescStart {f : PFinding} :
    ∀ {l : List PFinding}, l.Pairwise (fun a b => b.start ≤ a.start) →
      (insDescStart f l).Pairwise (fun a b => b.start ≤ a.start)
  | [], _ => by simp [insDescStart]
  | g :: t, h => by
    rcases List.pairwise_cons.mp h with ⟨hg, ht⟩
    by_cases hc : f.start ≤ g.start
    · rw [show insDescStart f (g :: t) = g :: insDescStart f t from by
        simp [insDescStart, hc]]
      refine List.pairwise_cons.mpr ⟨?_, pairwise_insDescStart ht⟩
      intro x hx
      rcases mem_insDescStart hx with rfl | hx
      · exact hc
      · exact hg x hx
    · rw [show insDescStart f (g :: t) = f :: g :: t from by
        simp [insDescStart, hc]]
      refine List.pairwise_cons.mpr ⟨?_, h⟩
      intro x hx
      rcases List.mem_cons.mp hx with rfl | hx
      · exact le_of_lt (lt_of_not_le hc)
      · exact le_trans (hg x hx) (le_of_lt (lt_of_not_le hc))

lemma sortDescStart_sorted (l : List PFinding) :
    (sortDescStart l).Pairwise (fun a b => b.start ≤ a.start) := by
  suffices h : ∀ (l acc : List PFinding),
      acc.Pairwise (fun a b => b.start ≤ a.start) →
      (l.foldl (fun acc f => insDescStart f acc) acc).Pairwise
        (fun a b => b.start ≤ a.start) from h l [] (by simp)
  intro l
  induction l with
  | nil => intro acc h; simpa using h
  | cons f t ih => intro acc h; exact ih _ (pairwise_insDescStart h)

/-! ## Helper lemmas about the statistics fold of `get_sanitization_summary` -/

lemma summaryStep_fst_ge (l : List (String × String)) :
    ∀ (m r : Nat), m ≤ (l.foldl summaryStep (m, r)).1 := by
  induction l with
  | nil => intro m r; exact le_refl m
  | cons pr t ih =>
    intro m r
    simp only [List.foldl_cons, summaryStep]
    by_cases h : pr.1 ≠ pr.2
    · rw [if_pos h]; exact le_trans (Nat.le_succ m) (ih (m + 1) _)
    · rw [if_neg h]; exact ih m r

lemma summaryStep_fst_le (l : List (String × String)) :
    ∀ (m r : Nat), (l.foldl summaryStep (m, r)).1 ≤ m + l.length := by
  induction l with
  | nil => intro m r; simp
  | cons pr t ih =>
    intro m r
    simp only [List.foldl_cons, summaryStep, List.length_cons]
    by_cases h : pr.1 ≠ pr.2
    · rw [if_pos h]
      have := ih (m + 1) (r + countTokC redactedTok pr.2.toList)
      omega
    · rw [if_neg h]
      have := ih m r
      omega

lemma summaryStep_fst_zero_snd (l : List (String × String)) :
    ∀ (m r : Nat), (l.foldl summaryStep (m, r)).1 = m → (l.foldl summaryStep (m, r)).2 = r := by
  induction l with
  | nil => intro m r _; rfl
  | cons pr t ih =>
    intro m r h
    by_cases hc : pr.1 ≠ pr.2
    · exfalso
      simp only [List.foldl_cons, summaryStep, if_pos hc] at h
      have := summaryStep_fst_ge t (m + 1) (r + countTokC redactedTok pr.2.toList)
      omega
    · simp only [List.foldl_cons, summaryStep, if_neg hc] at h ⊢
      exact ih m r h

lemma summaryStep_snd_sum (l : List (String × String)) :
    ∀ (m r : Nat), (l.foldl summaryStep (m, r)).2 =
      r + ((l.filter (fun pr => pr.1 != pr.2)).map
        (fun pr => countTokC redactedTok pr.2.toList)).sum := by
  induction l with
  | nil => intro m r; simp
  | cons pr t ih =>
    intro m r
    by_cases h : pr.1 ≠ pr.2
    · have hb : (pr.1 != pr.2) = true := by simpa using h
      simp only [List.foldl_cons, summaryStep, if_pos h, List.filter_cons, hb, if_pos,
        List.map_cons, List.sum_cons]
      rw [ih]
      omega
    · have heq : pr.1 = pr.2 := not_not.mp h
      have hb : (pr.1 != pr.2) = false := by simp [heq]
      simp only [List.foldl_cons, summaryStep, if_neg h, List.filter_cons, hb]
      simpa using ih m r

lemma stats_core (lo ls : List String) :
    ((lo.zip ls).foldl summaryStep (0, 0)).1 ≤ lo.length ∧
    (0 : ℚ) ≤ (((lo.zip ls).foldl summaryStep (0, 0)).1 : ℚ) / (max lo.length 1 : ℚ) ∧
    (((lo.zip ls).foldl summaryStep (0, 0)).1 : ℚ) / (max lo.length 1 : ℚ) ≤ 1 ∧
    (((lo.zip ls).foldl summaryStep (0, 0)).1 = 0 →
      ((lo.zip ls).foldl summaryStep (0, 0)).2 = 0) := by
  have hle : ((lo.zip ls).foldl summaryStep (0, 0)).1 ≤ lo.length := by
    have h1 := summaryStep_fst_le (lo.zip ls) 0 0
    have h2 : (lo.zip ls).length ≤ lo.length := by
      rw [List.length_zip]; exact inf_le_left
    omega
  have hdpos : (0 : ℚ) < (max (lo.length : ℚ) 1) :=
    lt_of_lt_of_le zero_lt_one (le_max_right _ _)
  refine ⟨hle, ?_, ?_, summaryStep_fst_zero_snd (lo.zip ls) 0 0⟩
  · exact div_nonneg (Nat.cast_nonneg _) (le_of_lt hdpos)
  · rw [div_le_one hdpos]
    calc (((lo.zip ls).foldl summaryStep (0, 0)).1 : ℚ) ≤ (lo.length : ℚ) := by
          exact_mod_cast hle
      _ ≤ max (lo.length : ℚ) 1 := le_max_left _ _

/-- C4: for every pair of original and sanitized texts, the record returned
by `get_sanitization_summary` satisfies `modified_lines <= total_lines`,
`0 <= sanitization_ratio <= 1`, and `redacted_items = 0` whenever
`modified_lines = 0`. -/
theorem claim4_stats_invariants (original sanitized : String) :
    (JenkinsSan.get_sanitization_summary original sanitized).modifiedLines ≤
      (JenkinsSan.get_sanitization_summary original sanitized).totalLines ∧
    (0 : ℚ) ≤ (JenkinsSan.get_sanitization_summary original sanitized).ratioValue ∧
    (JenkinsSan.get_sanitization_summary original sanitized).ratioValue ≤ 1 ∧
    ((JenkinsSan.get_sanitization_summary original sanitized).modifiedLines = 0 →
      (JenkinsSan.get_sanitization_summary original sanitized).redactedItems = 0) := by
  simp only [JenkinsSan.get_sanitization_summary]
  exact stats_core _ _

/-- C4 witness: the invariants instantiated at a concrete pair, with the
`modified_lines = 0` hypothesis of the last conjunct discharged by
evaluation. -/
theorem claim4_witness :
    (JenkinsSan.get_sanitization_summary "a" "a").redactedItems = 0 :=
  (claim4_stats_invariants "a" "a").2.2.2 (by decide)

/-- C5 (amended): `redacted_items` equals the sum, over exactly the zipped
line pairs that differ, of the `'_REDACTED]'` occurrences in the sanitized
line — unmodified lines contribute nothing even when they contain
placeholders. -/
theorem claim5_redacted_count (original sanitized : String) :
    (JenkinsSan.get_sanitization_summary original sanitized).redactedItems =
      ((((if original = "" then [] else splitNL original).zip
          (if sanitized = "" then [] else splitNL sanitized)).filter
            (fun pr => pr.1 != pr.2)).map
              (fun pr => countTokC redactedTok pr.2.toList)).sum := by
  simp only [JenkinsSan.get_sanitization_summary]
  simpa using summaryStep_snd_sum
    ((if original = "" then [] else splitNL original).zip
      (if sanitized = "" then [] else splitNL sanitized)) 0 0

/-- Modelled from the spec claim, for comparison with the code: the total
number of `'_REDACTED]'` placeholder occurrences present in the sanitized
text, counted on every line regardless of whether the line was modified
(the token contains no newline, so counting the whole text is the same as
summing over its lines). -/
def specTotalPlaceholders (sanitized : String) : Nat :=
  countTokC redactedTok sanitized.toList

/-- C5 counterexample: sanitizing the already-sanitized text
`"[EMAIL_REDACTED]"` returns it unchanged, so the pair
(original = sanitized = `"[EMAIL_REDACTED]"`) is produced by a real run;
the sanitized text contains one placeholder occurrence, but
`redacted_items` is 0 because the line did not differ — `redacted_items`
is not the placeholder count of the sanitized text. -/
theorem claim5_counterexample :
    JenkinsSan.sanitize_logs none JenkinsSan.sensitiveTerms "[EMAIL_REDACTED]" none =
      "[EMAIL_REDACTED]" ∧
    (JenkinsSan.get_sanitization_summary "[EMAIL_REDACTED]" "[EMAIL_REDACTED]").redactedItems = 0 ∧
    specTotalPlaceholders "[EMAIL_REDACTED]" = 1 ∧
    (JenkinsSan.get_sanitization_summary "[EMAIL_REDACTED]" "[EMAIL_REDACTED]").redactedItems ≠
      specTotalPlaceholders "[EMAIL_REDACTED]" := by
  refine ⟨by decide, by decide, by decide, by decide⟩

/-- C2 (amended): the replacement loop processes findings in descending
(stable, not necessarily strict) order of `start`, and a single finding on
line `L` is spliced as `L[:start] + "[" + entity + "_REDACTED]" + L[end:]`
by the preprocessing pipeline and the `log/presidio.py` sanitizer, while the
Jenkins sanitizer emits `"[" + entity + "_PII_REDACTED]"` instead. -/
theorem claim2_descending_splice :
    (∀ (line : String) (f : PFinding),
      applyFindings "_REDACTED]" [f] line =
        String.mk (line.toList.take f.start) ++ "[" ++ f.entity ++ "_REDACTED]" ++
          String.mk (line.toList.drop f.stop)) ∧
    (∀ (line : String) (f : PFinding),
      applyFindings "_PII_REDACTED]" [f] line =
        String.mk (line.toList.take f.start) ++ "[" ++ f.entity ++ "_PII_REDACTED]" ++
          String.mk (line.toList.drop f.stop)) ∧
    (∀ results : List PFinding,
      (sortDescStart results).Pairwise (fun a b => b.start ≤ a.start)) :=
  ⟨fun _ _ => rfl, fun _ _ => rfl, sortDescStart_sorted⟩

/-- A concrete analyzer reporting one PERSON finding on every line (used
only by the C2 counterexample). -/
def personAnalyzerJ : PAnalyzer := fun _ => .ok [⟨"PERSON", 0, 5⟩]

/-- C2 counterexample: on the line `"alice"` with the single finding
`PERSON [0, 5)`, the Jenkins `_apply_presidio` produces
`"[PERSON_PII_REDACTED]"`, not the `L[:start] + "[" + E + "_REDACTED]" +
L[end:]` splice the claim states. -/
theorem claim2_counterexample :
    JenkinsSan.applyPresidioStage personAnalyzerJ "alice" = "[PERSON_PII_REDACTED]" ∧
    JenkinsSan.applyPresidioStage personAnalyzerJ "alice" ≠
      String.mk ("alice".toList.take 0) ++ "[" ++ "PERSON" ++ "_REDACTED]" ++
        String.mk ("alice".toList.drop 5) := by
  refine ⟨by decide, by decide⟩

/-- C1 (amended): per-line stage order.  The Jenkins sanitizer computes, for
each line, the PII stage applied to the term stage applied to the regex stage
(after the blank-line short-circuit); the preprocessing pipeline and the
`log/presidio.py` sanitizer instead apply the term stage last, to the output
of the PII stage. -/
theorem claim1_stage_order :
    (∀ (a : PAnalyzer) (terms : List String) (line : String),
      JenkinsSan.sanitize_line (some a) terms line =
        if isBlankLine line then line
        else JenkinsSan.applyPresidioStage a
          (JenkinsSan.termStage terms (JenkinsSan.regexStage line))) ∧
    (∀ (a : Option PAnalyzer) (csTerms ciTerms : List String) (line : String),
      Prepor.process_line a csTerms ciTerms line =
        Prepor.businessRulesLine csTerms ciTerms
          (Prepor.presidioLine a (Prepor.regexFiltersLine line))) ∧
    (∀ (a : Option PAnalyzer) (line : String),
      LogSan.process_line a line =
        LogSan.termStage LogSan.sensitiveTerms
          (LogSan.presidioStage a (LogSan.regexStage (String.mk (rstripCRc line.toList))))) :=
  ⟨fun _ _ _ => rfl, fun _ _ _ _ => rfl, fun _ _ => rfl⟩

/-- A concrete analyzer that reports the finding `PERSON [0, 5)` exactly on
the line `"alice"` (used only by the C1 counterexample). -/
def personAnalyzer : PAnalyzer := fun s =>
  if s = "alice" then .ok [⟨"PERSON", 0, 5⟩] else .ok []

/-- C1 counterexample: for the pipeline of `preprocessing_pipeline.py`, the
per-line result is NOT `PII(TermList(Regex(line)))`.  With the
case-insensitive business term `"person"` and an analyzer reporting `PERSON
[0, 5)` on `"alice"`, the pipeline applies the term stage to the PII output
and mangles the placeholder into `"[[REDACTED]_REDACTED]"`, while the
claimed composition yields `"[PERSON_REDACTED]"`. -/
theorem claim1_counterexample :
    Prepor.process_line (some personAnalyzer) [] ["person"] "alice" =
      "[[REDACTED]_REDACTED]" ∧
    Prepor.presidioLine (some personAnalyzer)
        (Prepor.businessRulesLine [] ["person"] (Prepor.regexFiltersLine "alice")) =
      "[PERSON_REDACTED]" ∧
    Prepor.process_line (some personAnalyzer) [] ["person"] "alice" ≠
      Prepor.presidioLine (some personAnalyzer)
        (Prepor.businessRulesLine [] ["person"] (Prepor.regexFiltersLine "alice")) := by
  refine ⟨by decide, by decide, by decide⟩

/-- C3 (amended): on `"Deploying to PRODUCTION now"`, the Jenkins term stage
produces `"Deploying to [SENSITIVE_TERM_REDACTED] now"` when `"production"`
is applied before any other matching term (for instance when it is the only
term); with an iteration order that tries the default set's term `"prod"`
first, it produces `"Deploying to [SENSITIVE_TERM_REDACTED]UCTION now"` (the
Python set's iteration order is unspecified); the pipeline's
`BusinessRulesProcessor` uses the placeholder `[REDACTED]` instead. -/
theorem claim3_production_term :
    JenkinsSan.termStage ["production"] "Deploying to PRODUCTION now" =
      "Deploying to [SENSITIVE_TERM_REDACTED] now" ∧
    JenkinsSan.termStage ["prod", "production"] "Deploying to PRODUCTION now" =
      "Deploying to [SENSITIVE_TERM_REDACTED]UCTION now" ∧
    Prepor.businessRulesLine [] ["production"] "Deploying to PRODUCTION now" =
      "Deploying to [REDACTED] now" := by
  refine ⟨by decide, by decide, by decide⟩

/-- C3 counterexample: a term list whose case-insensitive terms include
`"production"` (here `["prod", "production"]`, both members of the Jenkins
default set) for which the term stage does NOT produce
`"Deploying to [SENSITIVE_TERM_REDACTED] now"`. -/
theorem claim3_counterexample :
    ("production" ∈ ["prod", "production"]) ∧
    JenkinsSan.termStage ["prod", "production"] "Deploying to PRODUCTION now" ≠
      "Deploying to [SENSITIVE_TERM_REDACTED] now" := by
  refine ⟨by decide, by decide⟩

/-- C6 (amended): for every `max_lines` value `n >= 1`, `sanitize_logs`
processes exactly the first `min(n, total)` lines — its output is the
newline-join of the sanitized `lines[:n]`; later lines do not appear.
(For `n = 0` the guard `if max_lines:` is falsy and no truncation happens;
see the counterexample.) -/
theorem claim6_max_lines (logs : String) (n : Int) (h : 1 ≤ n) :
    JenkinsSan.sanitize_logs none JenkinsSan.sensitiveTerms logs (some n) =
      joinNL (((splitNL logs).take n.toNat).map
        (JenkinsSan.sanitize_line none JenkinsSan.sensitiveTerms)) := by
  have hn0 : n ≠ 0 := by omega
  have hnn : (0 : Int) ≤ n := by omega
  by_cases hl : logs = ""
  · subst hl
    obtain ⟨k, hk⟩ : ∃ k, n.toNat = k + 1 := ⟨n.toNat - 1, by omega⟩
    have hsplit : splitNL "" = [""] := rfl
    have hempty : JenkinsSan.sanitize_line none JenkinsSan.sensitiveTerms "" = "" := rfl
    rw [hk, hsplit]
    simp [JenkinsSan.sanitize_logs, hempty, joinNL]
  · simp [JenkinsSan.sanitize_logs, pySliceTo, hl, hn0, hnn]

/-- C6 witness: the amended statement applied at `n = 1` on a two-line log. -/
theorem claim6_witness :
    JenkinsSan.sanitize_logs none JenkinsSan.sensitiveTerms "password=x\nb" (some 1) =
      joinNL (((splitNL "password=x\nb").take (1 : Int).toNat).map
        (JenkinsSan.sanitize_line none JenkinsSan.sensitiveTerms)) :=
  claim6_max_lines "password=x\nb" 1 (by decide)

/-- C6 counterexample: `max_lines = 0` is a given value for which the claim
fails — `if max_lines:` is falsy in Python, so no truncation happens and
both lines are processed, while the claim demands the first
`min(0, total) = 0` lines, i.e. empty output. -/
theorem claim6_counterexample :
    JenkinsSan.sanitize_logs none JenkinsSan.sensitiveTerms "password=x\nb" (some 0) =
      "[PASSWORD_REDACTED]\nb" ∧
    JenkinsSan.sanitize_logs none JenkinsSan.sensitiveTerms "password=x\nb" (some 0) ≠
      joinNL (((splitNL "password=x\nb").take (0 : Int).toNat).map
        (JenkinsSan.sanitize_line none JenkinsSan.sensitiveTerms)) := by
  refine ⟨by decide, by decide⟩

/-- C7: sanitization is idempotent on its own placeholders — for every
registered pattern name, sanitizing the bare placeholder line
`"[" + name + "_REDACTED]"` (with advanced PII disabled, as by default)
returns it unchanged, and sanitizing it twice equals sanitizing it once. -/
theorem claim7_placeholder_idempotent (name : String)
    (h : name ∈ jenkinsPatternNames) :
    JenkinsSan.sanitize_line none JenkinsSan.sensitiveTerms ("[" ++ name ++ "_REDACTED]") =
      "[" ++ name ++ "_REDACTED]" ∧
    JenkinsSan.sanitize_line none JenkinsSan.sensitiveTerms
        (JenkinsSan.sanitize_line none JenkinsSan.sensitiveTerms ("[" ++ name ++ "_REDACTED]")) =
      JenkinsSan.sanitize_line none JenkinsSan.sensitiveTerms ("[" ++ name ++ "_REDACTED]") := by
  have hall : jenkinsPatternNames.all
      (fun n => JenkinsSan.sanitize_line none JenkinsSan.sensitiveTerms ("[" ++ n ++ "_REDACTED]") ==
        ("[" ++ n ++ "_REDACTED]")) = true := by decide
  have h1 := List.all_eq_true.mp hall name h
  have h2 : JenkinsSan.sanitize_line none JenkinsSan.sensitiveTerms ("[" ++ name ++ "_REDACTED]") =
      "[" ++ name ++ "_REDACTED]" := eq_of_beq h1
  refine ⟨h2, ?_⟩
  rw [h2]
  exact h2

/-- C7 witness: the idempotence instance for the first registered pattern. -/
theorem claim7_witness :
    JenkinsSan.sanitize_line none JenkinsSan.sensitiveTerms "[PASSWORD_REDACTED]" =
      "[PASSWORD_REDACTED]" :=
  (claim7_placeholder_idempotent "PASSWORD" (by decide)).1

/-- C8: if the analyzer raises on a line, the PII stage returns that line
exactly as it was after the earlier stages (both in the Jenkins sanitizer
and in the pipeline), and an always-raising analyzer leaves every whole-run
output identical to a run with the PII stage disabled — no exception
escapes and subsequent lines are still processed. -/
theorem claim8_analyzer_error_recovery :
    (∀ (a : PAnalyzer) (line e : String), a line = .error e →
      JenkinsSan.applyPresidioStage a line = line) ∧
    (∀ (a : PAnalyzer) (line e : String), a line = .error e →
      Prepor.presidioLine (some a) line = line) ∧
    (∀ a : PAnalyzer, (∀ s, ∃ e, a s = .error e) →
      ∀ (terms : List String) (logs : String) (mx : Option Int),
        JenkinsSan.sanitize_logs (some a) terms logs mx =
          JenkinsSan.sanitize_logs none terms logs mx) := by
  refine ⟨?_, ?_, ?_⟩
  · intro a line e h
    unfold JenkinsSan.applyPresidioStage
    rw [h]
  · intro a line e h
    simp [Prepor.presidioLine, h]
  · intro a ha terms logs mx
    have hline : JenkinsSan.sanitize_line (some a) terms =
        JenkinsSan.sanitize_line none terms := by
      funext line
      unfold JenkinsSan.sanitize_line
      by_cases hb : isBlankLine line = true
      · simp [hb]
      · simp only [hb, if_false, Bool.false_eq_true]
        obtain ⟨e, he⟩ := ha (JenkinsSan.termStage terms (JenkinsSan.regexStage line))
        unfold JenkinsSan.applyPresidioStage
        rw [he]
    simp only [JenkinsSan.sanitize_logs, hline]

/-- The always-raising analyzer (used only by the C8 witness). -/
def failingAnalyzer : PAnalyzer := fun _ => .error "boom"

/-- C8 witness: a whole run with an always-raising analyzer equals the run
with the PII stage disabled, at a concrete two-line log. -/
theorem claim8_witness :
    JenkinsSan.sanitize_logs (some failingAnalyzer) JenkinsSan.sensitiveTerms
        "password=x\nb" none =
      JenkinsSan.sanitize_logs none JenkinsSan.sensitiveTerms "password=x\nb" none :=
  claim8_analyzer_error_recovery.2.2 failingAnalyzer (fun _ => ⟨"boom", rfl⟩)
    JenkinsSan.sensitiveTerms "password=x\nb" none

/-- C10: with advanced PII disabled the sanitizer is a total function of the
line (they are total Lean functions by construction); blank lines — the
empty string and whitespace-only lines — are returned unchanged by
`sanitize_line`, and `sanitize_logs` of the empty string is the empty
string for every `max_lines` value. -/
theorem claim10_totality :
    (∀ line : String, isBlankLine line = true →
      JenkinsSan.sanitize_line none JenkinsSan.sensitiveTerms line = line) ∧
    (∀ mx : Option Int,
      JenkinsSan.sanitize_logs none JenkinsSan.sensitiveTerms "" mx = "") := by
  constructor
  · intro line h
    unfold JenkinsSan.sanitize_line
    rw [if_pos h]
  · intro mx
    rfl

/-- C10 witness: a whitespace-only line passes through unchanged, and the
empty log with a concrete cap yields the empty string. -/
theorem claim10_witness :
    JenkinsSan.sanitize_line none JenkinsSan.sensitiveTerms "   " = "   " ∧
    JenkinsSan.sanitize_logs none JenkinsSan.sensitiveTerms "" (some 5) = "" :=
  ⟨claim10_totality.1 "   " (by decide), claim10_totality.2 (some 5)⟩

/-! ## Helper lemmas relating the whole-string and streaming decompositions -/

lemma splitNLc_cons_nl (t : List Char) : splitNLc ('\n' :: t) = [] :: splitNLc t := by
  simp [splitNLc]

lemma splitNLc_cons_ne (c : Char) (t : List Char) (h : c ≠ '\n') :
    splitNLc (c :: t) =
      match splitNLc t with
      | [] => [[c]]
      | a :: r => (c :: a) :: r := by
  simp [splitNLc, h]

lemma fileLinesC_cons_nl (t : List Char) : fileLinesC ('\n' :: t) = [] :: fileLinesC t := by
  simp [fileLinesC]

lemma fileLinesC_cons_ne (c : Char) (t : List Char) (h : c ≠ '\n') :
    fileLinesC (c :: t) =
      match fileLinesC t with
      | [] => [[c]]
      | a :: r => (c :: a) :: r := by
  simp [fileLinesC, h]

lemma splitNLc_ne_nil (s : List Char) : splitNLc s ≠ [] := by
  cases s with
  | nil => simp [splitNLc]
  | cons c t =>
    by_cases h : c = '\n'
    · subst h; rw [splitNLc_cons_nl]; simp
    · rw [splitNLc_cons_ne c t h]
      cases hs : splitNLc t with
      | nil => simp
      | cons a r => simp

lemma fileLinesC_append_newline : ∀ (s : List Char), fileLinesC (s ++ ['\n']) = splitNLc s := by
  intro s
  induction s with
  | nil => rfl
  | cons c t ih =>
    rw [List.cons_append]
    by_cases h : c = '\n'
    · subst h; rw [fileLinesC_cons_nl, splitNLc_cons_nl, ih]
    · rw [fileLinesC_cons_ne c _ h, splitNLc_cons_ne c t h, ih]

lemma splitNLc_append_newline : ∀ (s : List Char),
    splitNLc (s ++ ['\n']) = splitNLc s ++ [[]] := by
  intro s
  induction s with
  | nil => rfl
  | cons c t ih =>
    rw [List.cons_append]
    by_cases h : c = '\n'
    · subst h; rw [splitNLc_cons_nl, splitNLc_cons_nl, ih]; rfl
    · rw [splitNLc_cons_ne c _ h, splitNLc_cons_ne c t h, ih]
      cases hs : splitNLc t with
      | nil => exact absurd hs (splitNLc_ne_nil t)
      | cons a r => simp

lemma fileLinesC_eq_splitNLc : ∀ (s : List Char), s ≠ [] → s.getLast? ≠ some '\n' →
    fileLinesC s = splitNLc s := by
  intro s
  induction s with
  | nil => intro h _; exact absurd rfl h
  | cons c t ih =>
    intro _ hlast
    cases t with
    | nil =>
      have hc : c ≠ '\n' := by
        intro hcc
        exact hlast (by simp [hcc])
      rw [fileLinesC_cons_ne c [] hc, splitNLc_cons_ne c [] hc]
      rfl
    | cons d t2 =>
      have hlast2 : (d :: t2).getLast? ≠ some '\n' := by simpa using hlast
      have ih2 := ih (by simp) hlast2
      by_cases h : c = '\n'
      · subst h; rw [fileLinesC_cons_nl, splitNLc_cons_nl, ih2]
      · rw [fileLinesC_cons_ne c _ h, splitNLc_cons_ne c _ h, ih2]

lemma mem_fileLinesC : ∀ (s l : List Char), l ∈ fileLinesC s → ∀ c ∈ l, c ∈ s ∧ c ≠ '\n' := by
  intro s
  induction s with
  | nil => intro l hl; simp [fileLinesC] at hl
  | cons a t ih =>
    intro l hl c hc
    by_cases h : a = '\n'
    · subst h
      simp only [fileLinesC, if_pos rfl] at hl
      rcases List.mem_cons.mp hl with rfl | hl
      · simp at hc
      · have := ih l hl c hc
        exact ⟨List.mem_cons_of_mem _ this.1, this.2⟩
    · simp only [fileLinesC, if_neg h] at hl
      cases hft : fileLinesC t with
      | nil =>
        rw [hft] at hl
        simp at hl
        subst hl
        simp at hc
        subst hc
        exact ⟨by simp, h⟩
      | cons h0 r =>
        rw [hft] at hl
        rcases List.mem_cons.mp hl with rfl | hl
        · rcases List.mem_cons.mp hc with rfl | hc
          · exact ⟨by simp, h⟩
          · have := ih h0 (by rw [hft]; simp) c hc
            exact ⟨List.mem_cons_of_mem _ this.1, this.2⟩
        · have := ih l (by rw [hft]; exact List.mem_cons_of_mem _ hl) c hc
          exact ⟨List.mem_cons_of_mem _ this.1, this.2⟩

lemma rstripCRc_eq_self (l : List Char) (h : ∀ c ∈ l, c ≠ '\n' ∧ c ≠ '\r') :
    rstripCRc l = l := by
  unfold rstripCRc
  cases hr : l.reverse with
  | nil =>
    have : l = [] := by simpa using congrArg List.reverse hr
    simp [this]
  | cons c t =>
    have hc : c ∈ l := by
      rw [← List.mem_reverse, hr]
      exact List.mem_cons_self c t
    obtain ⟨h1, h2⟩ := h c hc
    have hp : (decide (c = '\n') || decide (c = '\r')) = false := by simp [h1, h2]
    rw [List.dropWhile_cons]
    simp only [hp, Bool.false_eq_true, if_false]
    rw [← hr, List.reverse_reverse]

lemma fileLines_of_noCR (s : String) (h : ∀ c ∈ s.toList, c ≠ '\r') :
    fileLines s = (fileLinesC s.toList).map String.mk := by
  unfold fileLines
  apply List.map_congr_left
  intro l hl
  congr 1
  apply rstripCRc_eq_self
  intro c hc
  have := mem_fileLinesC s.toList l hl c hc
  exact ⟨this.2, h c this.1⟩

lemma joinNL_cons_cons (a b : String) (t : List String) :
    joinNL (a :: b :: t) = a ++ "\n" ++ joinNL (b :: t) := rfl

lemma strConcat_cons (a : String) (t : List String) :
    strConcat (a :: t) = a ++ strConcat t := rfl

lemma joinNL_append_empty : ∀ (l : List String),
    joinNL (l ++ [""]) = strConcat (l.map (· ++ "\n")) := by
  intro l
  induction l with
  | nil => rfl
  | cons a t ih =>
    cases t with
    | nil => rfl
    | cons b t2 =>
      simp only [List.cons_append] at ih ⊢
      rw [joinNL_cons_cons, ih]
      simp [List.map_cons, strConcat_cons]

lemma strConcat_map_eq_joinNL (l : List String) (h : l ≠ []) :
    strConcat (l.map (· ++ "\n")) = joinNL l ++ "\n" := by
  induction l with
  | nil => exact absurd rfl h
  | cons a t ih =>
    cases t with
    | nil => simp [strConcat, joinNL, String.append_empty]
    | cons b t2 =>
      rw [List.map_cons, strConcat_cons, ih (by simp), joinNL_cons_cons]
      simp [String.append_assoc]

lemma joinNL_map_append_empty (L : List (List Char)) (g : String → String)
    (hg0 : g "" = "") :
    joinNL ((L ++ [[]]).map (fun x => g (String.mk x))) =
      strConcat (L.map (fun x => g (String.mk x) ++ "\n")) := by
  rw [List.map_append]
  have h1 : ([[]] : List (List Char)).map (fun x => g (String.mk x)) = [""] := by
    simp only [List.map_cons, List.map_nil]
    rw [show String.mk ([] : List Char) = "" from rfl, hg0]
  rw [h1]
  have h2 := joinNL_append_empty (L.map (fun x => g (String.mk x)))
  rw [List.map_map] at h2
  exact h2

lemma strConcat_map_line (L : List (List Char)) (g : String → String) (hnil : L ≠ []) :
    strConcat (L.map (fun x => g (String.mk x) ++ "\n")) =
      joinNL (L.map (fun x => g (String.mk x))) ++ "\n" := by
  have h := strConcat_map_eq_joinNL (L.map (fun x => g (String.mk x)))
    (by simpa using hnil)
  rw [List.map_map] at h
  exact h

/-- Modelled from the spec claim, for the refinement comparison: the
streaming file mode with the same per-line sanitizer as the whole-string
mode — the text is read from a file line by line (as
`StreamingLogReader.read_lines` does, including its `rstrip('\n\r')`), each
line is sanitized, and each result is written followed by `'\n'` (as the
write loop of `LogPreprocessingPipeline.preprocess_logs` does). -/
def streamModeJ (text : String) : String :=
  strConcat ((fileLines text).map
    (fun l => JenkinsSan.sanitize_line none JenkinsSan.sensitiveTerms l ++ "\n"))

/-- C9 (amended): for newline-clean input (no carriage returns), the
whole-string mode and the streaming file mode agree exactly when the input
is empty or ends with a newline; otherwise the streaming output is the
whole-string output plus one trailing newline — the two modes are NOT
byte-identical in general. -/
theorem claim9_modes (text : String) (hcr : ∀ c ∈ text.toList, c ≠ '\r') :
    (text.toList.getLast? = some '\n' ∨ text = "" →
      streamModeJ text =
        JenkinsSan.sanitize_logs none JenkinsSan.sensitiveTerms text none) ∧
    (text.toList.getLast? ≠ some '\n' → text ≠ "" →
      streamModeJ text =
        JenkinsSan.sanitize_logs none JenkinsSan.sensitiveTerms text none ++ "\n") := by
  have hmk : String.mk text.toList = text := by cases text; rfl
  have hstream : streamModeJ text =
      strConcat ((fileLinesC text.toList).map
        (fun l => JenkinsSan.sanitize_line none JenkinsSan.sensitiveTerms (String.mk l) ++ "\n")) := by
    unfold streamModeJ
    rw [fileLines_of_noCR text hcr, List.map_map]
    rfl
  constructor
  · intro hg
    rcases hg with hg | hg
    · have hne : text.toList ≠ [] := by
        intro h0
        rw [h0] at hg
        simp at hg
      have htext : text ≠ "" := by
        intro h0
        apply hne
        rw [← hmk] at h0
        have := congrArg String.toList h0
        simpa using this
      have hdec : text.toList.dropLast ++ ['\n'] = text.toList :=
        List.dropLast_append_getLast? '\n' hg
      have hwhole : JenkinsSan.sanitize_logs none JenkinsSan.sensitiveTerms text none =
          joinNL ((splitNL text).map
            (JenkinsSan.sanitize_line none JenkinsSan.sensitiveTerms)) := by
        simp [JenkinsSan.sanitize_logs, htext]
      rw [hstream, hwhole, show splitNL text = (splitNLc text.toList).map String.mk from rfl,
        ← hdec, splitNLc_append_newline, fileLinesC_append_newline, List.map_map]
      exact (joinNL_map_append_empty (splitNLc text.toList.dropLast)
        (JenkinsSan.sanitize_line none JenkinsSan.sensitiveTerms) rfl).symm
    · subst hg
      rfl
  · intro hg htext
    have hne : text.toList ≠ [] := by
      intro h0
      apply htext
      rw [← hmk, h0]
    have hwhole : JenkinsSan.sanitize_logs none JenkinsSan.sensitiveTerms text none =
        joinNL ((splitNL text).map
          (JenkinsSan.sanitize_line none JenkinsSan.sensitiveTerms)) := by
      simp [JenkinsSan.sanitize_logs, htext]
    rw [hstream, hwhole, show splitNL text = (splitNLc text.toList).map String.mk from rfl,
      fileLinesC_eq_splitNLc text.toList hne hg, List.map_map]
    exact strConcat_map_line (splitNLc text.toList)
      (JenkinsSan.sanitize_line none JenkinsSan.sensitiveTerms)
      (splitNLc_ne_nil text.toList)

/-- C9 witness: the two modes agree on the newline-terminated input
`"a\n"`. -/
theorem claim9_witness :
    streamModeJ "a\n" =
      JenkinsSan.sanitize_logs none JenkinsSan.sensitiveTerms "a\n" none :=
  (claim9_modes "a\n" (by decide)).1 (Or.inl (by decide))

/-- C9 counterexample: on the input `"abc"` (no trailing newline) the
streaming mode writes `"abc\n"` while the whole-string mode returns
`"abc"` — the modes are not byte-identical. -/
theorem claim9_counterexample :
    streamModeJ "abc" = "abc\n" ∧
    JenkinsSan.sanitize_logs none JenkinsSan.sensitiveTerms "abc" none = "abc" ∧
    streamModeJ "abc" ≠
      JenkinsSan.sanitize_logs none JenkinsSan.sensitiveTerms "abc" none := by
  refine ⟨by decide, by decide, by decide⟩
